import Mathlib

/-!
Verification development for the runtime structural type-checking library
(`src/Type.js`).  The JavaScript source is shallowly embedded in Lean:

* `Ty` embeds the descriptor classes (`Type` and its subclasses `Primitive`,
  `OneOf`, `ArrayOf`, `TupleOf`, `RecordOf`, `Nullable`, `TypedFunction`);
  a `Ty` value models one canonical descriptor instance (the registries in
  the source guarantee one live instance per normalized shape).
* `JSVal` embeds the JavaScript values the library manipulates.  Proxies
  produced by `editValue` are embedded explicitly (`JSVal.vProxy`) because
  the write-interception claims are about them.
* Functions that can throw in JavaScript return `Except`.
* The memoization registries (`Type.#known`, `Primitive.#known`,
  `OneOf.#known`, `TupleOf.#known`, `RecordOf.#known`) are embedded as an
  explicit state (`St`) threaded through the factory functions, with
  descriptor instances represented by numeric heap ids so that JavaScript
  reference identity (`===`) of descriptors is equality of ids.

Model boundaries, stated once here: boxed wrapper objects (`new Number(1)`),
sparse-array holes, and inherited prototype-chain properties are outside the
model; object property keys are strings or symbols (`Key`), and primitive
values are booleans, integers and strings (`Prim`).  None of the claims
exercise those boundaries.
-/

/-- A JavaScript property key: an own string key or an own symbol key
(symbols are identified by an allocation number). -/
inductive Key where
  | str (s : String)
  | sym (n : Nat)
deriving DecidableEq, Repr

/-- A primitive JavaScript value as used for `Primitive` literal descriptors:
booleans, (integer) numbers and strings. -/
inductive Prim where
  | pBool (b : Bool)
  | pInt (n : Int)
  | pStr (s : String)
deriving DecidableEq, Repr

/-- Embedding of the descriptor classes of `Type.js`.  The nine built-in
leaf singletons of class `Type` are the first nine constructors; `prim`
is class `Primitive`; the remaining constructors are the composite
subclasses.  A `typedFun` overload is a pair (positional parameter
descriptors, return descriptor), as built by `TypedFunction.getFor`. -/
inductive Ty where
  | tNull
  | tUndefined
  | tBoolean
  | tNumber
  | tString
  | tObject
  | tArray
  | tSymbol
  | tFunction
  | prim (p : Prim)
  | oneOf (ms : List Ty)
  | arrayOf (e : Ty)
  | tupleOf (ts : List Ty)
  | recordOf (fs : List (Key × Ty))
  | nullable (t : Ty)
  | typedFun (ovs : List (List Ty × Ty))

/-- Embedding of the JavaScript values handled by the library.  `vArr`
models a dense array (its index properties in order), `vObj` a plain object
(its own enumerable properties in insertion order), `vFun` an ordinary
function value, `vProxy t target` the proxy returned by `t.editValue(target)`,
and `vFnW ovs f` the wrapping function returned by
`TypedFunction.editValue` around the function value `f`. -/
inductive JSVal where
  | vNull
  | vUndefined
  | vBool (b : Bool)
  | vNum (n : Int)
  | vStr (s : String)
  | vSym (n : Nat)
  | vArr (xs : List JSVal)
  | vObj (fs : List (Key × JSVal))
  | vFun (fid : Nat)
  | vProxy (t : Ty) (target : JSVal)
  | vFnW (ovs : List (List Ty × Ty)) (target : JSVal)

/-- The JavaScript `typeof` operator on embedded values.  `typeof null`
is `"object"`; `typeof` of a proxy is the `typeof` of its target
(our proxy targets are never revoked). -/
def typeofStr : JSVal → String
  | .vNull => "object"
  | .vUndefined => "undefined"
  | .vBool _ => "boolean"
  | .vNum _ => "number"
  | .vStr _ => "string"
  | .vSym _ => "symbol"
  | .vArr _ => "object"
  | .vObj _ => "object"
  | .vFun _ => "function"
  | .vProxy _ target => typeofStr target
  | .vFnW _ _ => "function"

/-- `Array.isArray`, which pierces proxies. -/
def isArrayJS : JSVal → Bool
  | .vArr _ => true
  | .vProxy _ target => isArrayJS target
  | _ => false

/-- Strict-equality test against `null` (`value === null`).  A proxy is a
distinct object reference, never `null`. -/
def isNullV : JSVal → Bool
  | .vNull => true
  | _ => false

/-- Strict-equality test against `undefined`. -/
def isUndefV : JSVal → Bool
  | .vUndefined => true
  | _ => false

/-- Remove any proxy wrappers from the top of a value: reads, spreads and
enumeration forwarded by the (get-trap-free) proxies reach this value. -/
def strip : JSVal → JSVal
  | .vProxy _ target => strip target
  | v => v

/-- Decimal digit parse of a character list. -/
def digitsToNat (acc : Nat) : List Char → Option Nat
  | [] => some acc
  | c :: cs =>
    if c.isDigit then digitsToNat (acc * 10 + (c.toNat - 48)) cs else none

/-- The canonical array-index reading of a string property key
(`"0"`, `"17"`, ...; `"00"`, `"1a"` and digit strings at or above
2^32 - 1 are not indices, so such keys are plain properties). -/
def toIdx (s : String) : Option Nat :=
  match s.data with
  | [] => none
  | c :: cs =>
    if c = '0' && !cs.isEmpty then none
    else
      match digitsToNat 0 (c :: cs) with
      | some n => if n < 4294967295 then some n else none
      | none => none

/-- First-match association lookup among own properties. -/
def lookupKey {α : Type} : List (Key × α) → Key → Option α
  | [], _ => none
  | (k, a) :: rest, k0 => if k = k0 then some a else lookupKey rest k0

/-- Update (in place, preserving property order) or append a property,
mirroring JavaScript assignment on a plain object. -/
def setField {α : Type} : List (Key × α) → Key → α → List (Key × α)
  | [], k0, a0 => [(k0, a0)]
  | (k, a) :: rest, k0, a0 =>
    if k = k0 then (k, a0) :: rest else (k, a) :: setField rest k0 a0

/-- Write element `i` of a dense array, extending with `undefined` when `i`
is past the end (JavaScript reads of the skipped positions give
`undefined`); the resulting length is `max (i+1) length`. -/
def listSetExtend : List JSVal → Nat → JSVal → List JSVal
  | _ :: xs, 0, v => v :: xs
  | [], 0, v => [v]
  | [], Nat.succ i, v => .vUndefined :: listSetExtend [] i v
  | x :: xs, Nat.succ i, v => x :: listSetExtend xs i v

/-- Resize a dense array as JavaScript `arr.length = n` does: truncate, or
extend with `undefined`-reading positions. -/
def listResize (xs : List JSVal) (n : Nat) : List JSVal :=
  xs.take n ++ List.replicate (n - xs.length) .vUndefined

/-- Property read (`value[key]`), forwarded through proxies; a missing
property reads as `undefined`; `arr.length` is the array length. -/
def getProp : JSVal → Key → JSVal
  | .vObj fs, k => (lookupKey fs k).getD .vUndefined
  | .vArr xs, .str s =>
    if s = "length" then .vNum xs.length
    else match toIdx s with
      | some i => xs.getD i .vUndefined
      | none => .vUndefined
  | .vProxy _ target, k => getProp target k
  | _, _ => .vUndefined

/-- The exceptions a raw property assignment itself can raise:
`invalidLength` is the `RangeError` from assigning an invalid array length
(negative, NaN from a non-numeric string, `undefined`, or at least 2^32),
and `lengthSymbol` is the built-in `TypeError` from coercing a symbol to a
number during a length assignment. -/
inductive AssignErr where
  | invalidLength
  | lengthSymbol
deriving DecidableEq, Repr

/-- JavaScript array-length assignment coercion (`ArraySetLength`): the
assigned value is converted with `ToNumber` and accepted when it equals its
`ToUint32` image — numbers in `[0, 2^32)`, plain decimal-digit strings and
the empty string, booleans, and `null` resize the array; `undefined`,
non-numeric strings and out-of-range numbers raise `RangeError`, and
symbols raise `TypeError`.  (Strings in other numeric formats — signs,
blanks, decimal points, exponents, hex — and `ToPrimitive` on object-valued
lengths are outside the model and treated as non-numeric.) -/
def lenOfVal : JSVal → Except AssignErr Nat
  | .vNum n =>
    if 0 ≤ n ∧ n < 4294967296 then .ok n.toNat else .error .invalidLength
  | .vStr s =>
    match s.data with
    | [] => .ok 0
    | c :: cs =>
      match digitsToNat 0 (c :: cs) with
      | some n => if n < 4294967296 then .ok n else .error .invalidLength
      | none => .error .invalidLength
  | .vBool b => .ok (if b then 1 else 0)
  | .vNull => .ok 0
  | .vSym _ => .error .lengthSymbol
  | _ => .error .invalidLength

/-- Raw property assignment `obj[key] := v` on the proxy target, mirroring
JavaScript semantics on plain objects and dense arrays: on an array a
numeric key writes (and possibly extends) the element list, and assigning
`length` resizes the array under the `lenOfVal` coercion, raising out of
the assignment when the length is invalid.  Non-index string keys and
symbol keys on arrays are outside the model and leave the value unchanged,
and assignment on primitives is ignored (as in non-strict JavaScript). -/
def setProp : JSVal → Key → JSVal → Except AssignErr JSVal
  | .vObj fs, k, v => .ok (.vObj (setField fs k v))
  | .vArr xs, .str s, v =>
    if s = "length" then
      match lenOfVal v with
      | .ok n => .ok (.vArr (listResize xs n))
      | .error e => .error e
    else
      match toIdx s with
      | some i => .ok (.vArr (listSetExtend xs i v))
      | none => .ok (.vArr xs)
  | .vArr xs, .sym _, _ => .ok (.vArr xs)
  | v, _, _ => .ok v

/-- The tentative post-write shallow copy built by `OneOf`'s set trap:
`[...obj]` then `newObject[prop] = value` for arrays (where a `length`
assignment keeps its JavaScript coercion semantics and can raise), and
`{...obj, [prop]: value}` for objects (a plain property, never raising).
Spreading reads through proxies. -/
def shallowCopySet (obj : JSVal) (k : Key) (v : JSVal) :
    Except AssignErr JSVal :=
  match strip obj with
  | .vArr xs => setProp (.vArr xs) k v
  | .vObj fs => setProp (.vObj fs) k v
  | _ => .ok (.vObj [(k, v)])

/-- The exceptions the library's validity/edit machinery can raise:
`nullTypeViolation` is the `TypeError` thrown by the `Type.null` validation
function; `toObjectOnNull` is the built-in `TypeError` thrown when
`RecordOf.isValid` enumerates the keys of `null`; `proxyOnNonObject` is the
built-in `TypeError` thrown by `new Proxy(value, handler)` when `value` is
not an object. -/
inductive TErr where
  | nullTypeViolation
  | toObjectOnNull
  | proxyOnNonObject
deriving DecidableEq, Repr

/-- `xs.every(x => f x)` where the predicate may throw: short-circuits on the
first `false` and propagates the first exception. -/
def listEveryE (f : JSVal → Except TErr Bool) : List JSVal → Except TErr Bool
  | [] => .ok true
  | x :: xs =>
    match f x with
    | .error e => .error e
    | .ok false => .ok false
    | .ok true => listEveryE f xs

/-- `value.every((v, i) => types[i]?.isValid(v))` of `TupleOf.isValid`,
walking the per-position validators and the elements in parallel: an element
beyond the declared positions meets `undefined?.isValid(v)`, which is falsy. -/
def tupCheck : List (JSVal → Except TErr Bool) → List JSVal → Except TErr Bool
  | _, [] => .ok true
  | [], _ :: _ => .ok false
  | f :: fns, x :: xs =>
    match f x with
    | .error e => .error e
    | .ok false => .ok false
    | .ok true => tupCheck fns xs

/-- Is the key a symbol key? -/
def Key.isSym : Key → Bool
  | .sym _ => true
  | .str _ => false

/-- `[...Object.getOwnPropertySymbols(v), ...Object.getOwnPropertyNames(v)]`
on a plain object: all own keys, symbol keys first. -/
def ownKeysSymFirst (fs : List (Key × JSVal)) : List Key :=
  (fs.filter (fun kv => kv.1.isSym)).map (·.1) ++
    (fs.filter (fun kv => !kv.1.isSym)).map (·.1)

/-- The `.every(key => types[key]?.isValid(value[key]))` of
`RecordOf.isValid`: for each enumerated key, look up the declared validator
(an undeclared key gives `undefined?.isValid(...)`, falsy) and apply it to
the value read at that key. -/
def recordCheck (fns : List (Key × (JSVal → Except TErr Bool))) (v : JSVal) :
    List Key → Except TErr Bool
  | [] => .ok true
  | k :: ks =>
    match lookupKey fns k with
    | none => .ok false
    | some f =>
      match f (getProp v k) with
      | .error e => .error e
      | .ok false => .ok false
      | .ok true => recordCheck fns v ks

mutual
/-- `isValid` of every descriptor class, by case on the class exactly as in
the source: the nine `Type` singletons use their validation functions
(`Type.null`'s validation function throws on every value), `Primitive`
compares by strict equality, `OneOf.isValid` is
`subTypes.find(t => t.isValid(value)) !== undefined`, `ArrayOf.isValid` is
`Array.isArray(value) && value.every(...)`, `TupleOf.isValid` is
`Array.isArray(value) && value.every((v,i) => types[i]?.isValid(v))`,
`RecordOf.isValid` rejects non-objects and arrays and then checks every own
key (symbols first) against the declared shape, `Nullable.isValid` accepts
`null`/`undefined` or delegates, and `TypedFunction.isValid` is
`typeof value === "function"`. -/
def tyIsValid : Ty → JSVal → Except TErr Bool
  | .tNull, _ => .error .nullTypeViolation
  | .tUndefined, _ => .ok true
  | .tBoolean, v => .ok (match v with | .vBool _ => true | _ => false)
  | .tNumber, v => .ok (typeofStr v == "number")
  | .tString, v => .ok (typeofStr v == "string")
  | .tObject, v => .ok (typeofStr v == "object" && !isArrayJS v && !isNullV v)
  | .tArray, v => .ok (typeofStr v == "object" && isArrayJS v)
  | .tSymbol, v => .ok (typeofStr v == "symbol")
  | .tFunction, v => .ok (typeofStr v == "function")
  | .prim p, v =>
    .ok (match p, v with
      | .pBool b, .vBool b0 => b == b0
      | .pInt n, .vNum n0 => n == n0
      | .pStr s, .vStr s0 => s == s0
      | _, _ => false)
  | .oneOf ms, v => oneAny ms v
  | .arrayOf e, v =>
    match strip v with
    | .vArr xs => listEveryE (fun x => tyIsValid e x) xs
    | _ => .ok false
  | .tupleOf ts, v =>
    match strip v with
    | .vArr xs => tupCheck (tupFns ts) xs
    | _ => .ok false
  | .recordOf fs, v =>
    if typeofStr v != "object" || isArrayJS v then .ok false
    else
      match strip v with
      | .vObj ofs => recordCheck (fieldsFns fs) (.vObj ofs) (ownKeysSymFirst ofs)
      | .vNull => .error .toObjectOnNull
      | _ => .ok false
  | .nullable t, v =>
    if isNullV v || isUndefV v then .ok true else tyIsValid t v
  | .typedFun _, v => .ok (typeofStr v == "function")

/-- `OneOf.isValid`'s member scan (`Array.prototype.find` on the member
list), propagating a member's exception. -/
def oneAny : List Ty → JSVal → Except TErr Bool
  | [], _ => .ok false
  | t :: rest, v =>
    match tyIsValid t v with
    | .error e => .error e
    | .ok true => .ok true
    | .ok false => oneAny rest v

/-- The per-position validators of a `TupleOf`. -/
def tupFns : List Ty → List (JSVal → Except TErr Bool)
  | [] => []
  | t :: ts => (fun x => tyIsValid t x) :: tupFns ts

/-- The per-key validators of a `RecordOf`'s declared shape. -/
def fieldsFns : List (Key × Ty) → List (Key × (JSVal → Except TErr Bool))
  | [] => []
  | (k, t) :: fs => (k, fun x => tyIsValid t x) :: fieldsFns fs
end

mutual
/-- Structural equality of descriptors.  Because every factory is memoized
(one canonical instance per normalized shape), JavaScript reference equality
of canonical descriptors coincides with structural equality of their shapes;
this Boolean equality models the `Set`-membership (reference) comparison
used when deduplicating union members. -/
def tyBEq : Ty → Ty → Bool
  | .tNull, .tNull => true
  | .tUndefined, .tUndefined => true
  | .tBoolean, .tBoolean => true
  | .tNumber, .tNumber => true
  | .tString, .tString => true
  | .tObject, .tObject => true
  | .tArray, .tArray => true
  | .tSymbol, .tSymbol => true
  | .tFunction, .tFunction => true
  | .prim p, .prim q => p == q
  | .oneOf ms, .oneOf ns => tyListBEq ms ns
  | .arrayOf e, .arrayOf e0 => tyBEq e e0
  | .tupleOf ts, .tupleOf us => tyListBEq ts us
  | .recordOf fs, .recordOf gs => tyFieldsBEq fs gs
  | .nullable t, .nullable u => tyBEq t u
  | .typedFun ovs, .typedFun ows => tyOvsBEq ovs ows
  | _, _ => false

def tyListBEq : List Ty → List Ty → Bool
  | [], [] => true
  | t :: ts, u :: us => tyBEq t u && tyListBEq ts us
  | _, _ => false

def tyFieldsBEq : List (Key × Ty) → List (Key × Ty) → Bool
  | [], [] => true
  | (k, t) :: fs, (k0, u) :: gs => k = k0 && tyBEq t u && tyFieldsBEq fs gs
  | _, _ => false

def tyOvsBEq : List (List Ty × Ty) → List (List Ty × Ty) → Bool
  | [], [] => true
  | (ps, r) :: ovs, (qs, r0) :: ows =>
    tyListBEq ps qs && tyBEq r r0 && tyOvsBEq ovs ows
  | _, _ => false
end

/-- One level of union flattening: a member list in which hints that were
already `OneOf` descriptors contribute their member lists
(`t instanceof OneOf ? t.#subTypes : type(t)`, then `.flat()`).  Members of
a canonical union are never unions themselves, so one level suffices. -/
def flattenOne : List Ty → List Ty
  | [] => []
  | .oneOf ms :: rest => ms ++ flattenOne rest
  | t :: rest => t :: flattenOne rest

/-- `new ComparableSet(...)`: deduplicate keeping first occurrences, the
insertion-order semantics of a JavaScript `Set` of canonical descriptor
references. -/
def dedupAux (seen : List Ty) : List Ty → List Ty
  | [] => []
  | t :: rest =>
    if seen.any (tyBEq t) then dedupAux seen rest
    else t :: dedupAux (t :: seen) rest

def dedupTy (ts : List Ty) : List Ty := dedupAux [] ts

/-- The pure shape of `OneOf.getFor` over already-normalized members:
flatten nested unions, deduplicate, and degenerate a one-element set to its
single member (`Type.getFor` returns a descriptor argument as-is). -/
def oneOfTys (ts : List Ty) : Ty :=
  match dedupTy (flattenOne ts) with
  | [t] => t
  | s => .oneOf s

/-- `oneOf(...)` applied to sub-descriptor lookups that may be `undefined`:
`type(undefined)` is the `Type.undefined` singleton. -/
def oneOfHints (opts : List (Option Ty)) : Ty :=
  oneOfTys (opts.map (fun o => o.getD .tUndefined))

/-- `params[index]` for a string index on the parameter array of one
overload (`"length"` and other non-index array properties are outside the
model). -/
def ovParamAt (ps : List Ty) : Key → Option Ty
  | .str s =>
    match toIdx s with
    | some i => ps[i]?
    | none => none
  | .sym _ => none

mutual
/-- `subtypeAt` of every descriptor class: `undefined` (`none`) on leaves
and `Primitive`, the union of member sub-descriptors on `OneOf`, the
constant element descriptor on `ArrayOf`, the positional descriptor on
`TupleOf`, the declared key descriptor on `RecordOf`, delegation on
`Nullable`, and the overload-structured lookup on `TypedFunction`. -/
def subtypeAtT : Ty → Key → Option Ty
  | .tNull, _ => none
  | .tUndefined, _ => none
  | .tBoolean, _ => none
  | .tNumber, _ => none
  | .tString, _ => none
  | .tObject, _ => none
  | .tArray, _ => none
  | .tSymbol, _ => none
  | .tFunction, _ => none
  | .prim _, _ => none
  | .oneOf ms, k => some (oneOfHints (subsAt ms k))
  | .arrayOf e, _ => some e
  | .tupleOf ts, k => ovParamAt ts k
  | .recordOf fs, k => lookupKey fs k
  | .nullable t, k => subtypeAtT t k
  | .typedFun ovs, k =>
    match ovs with
    | [ov] => if k = .str "return" then some ov.2 else ovParamAt ov.1 k
    | _ =>
      if k = .str "return" then some (oneOfTys (ovs.map (·.2)))
      else some (oneOfHints (ovs.map (fun ov => ovParamAt ov.1 k)))

def subsAt : List Ty → Key → List (Option Ty)
  | [], _ => []
  | t :: rest, k => subtypeAtT t k :: subsAt rest k
end

/-- Can `new Proxy(value, handler)` be constructed on this value?  Only on
objects (functions included); otherwise the built-in `TypeError` fires. -/
def canProxy (v : JSVal) : Bool :=
  (typeofStr v == "object" && !isNullV v) || typeofStr v == "function"

/-- `editValue` of every descriptor class: the identity on the `Type`
singletons, `Primitive` and `Nullable`; a set-trapping proxy around the
value on `ArrayOf`, `TupleOf` and `RecordOf` (unconditionally, so a
non-object argument makes the `Proxy` constructor throw); on `OneOf`, the
value itself when `typeof value !== "object"` and a set-trapping proxy
otherwise; and the validating wrapper function on `TypedFunction`. -/
def tyEdit : Ty → JSVal → Except TErr JSVal
  | .oneOf ms, v =>
    if typeofStr v != "object" then .ok v
    else if canProxy v then .ok (.vProxy (.oneOf ms) v) else .error .proxyOnNonObject
  | .arrayOf e, v =>
    if canProxy v then .ok (.vProxy (.arrayOf e) v) else .error .proxyOnNonObject
  | .tupleOf ts, v =>
    if canProxy v then .ok (.vProxy (.tupleOf ts) v) else .error .proxyOnNonObject
  | .recordOf fs, v =>
    if canProxy v then .ok (.vProxy (.recordOf fs) v) else .error .proxyOnNonObject
  | .typedFun ovs, v => .ok (.vFnW ovs v)
  | _, v => .ok v

/-- Errors that can escape a set trap: a descriptor's own `isValid` or
`editValue` threw; the `TupleOf` trap read `#types["length"]` (a number, on
a nonempty tuple) and called `.isValid` on it, a built-in `TypeError`; the
raw assignment itself raised (an invalid array-length write); or the
ambiguous-write diagnostic of the `OneOf` trap evaluated
`t.subtypeAt(prop).toString()` on a compatible member whose sub-descriptor
at the key is `undefined`, a built-in `TypeError`. -/
inductive WriteErr where
  | threw (e : TErr)
  | lengthCrash
  | assignThrew (e : AssignErr)
  | toStringOnUndefined
deriving DecidableEq, Repr

/-- `subTypes.filter(t => t.isValid(value))` with a member's exception
propagated (members are evaluated left to right). -/
def filterValid : List Ty → JSVal → Except TErr (List Ty)
  | [], _ => .ok []
  | t :: rest, v =>
    match tyIsValid t v with
    | .error e => .error e
    | .ok b =>
      match filterValid rest v with
      | .error e => .error e
      | .ok l => .ok (if b then t :: l else l)

/-- Does this sub-descriptor lookup make a write unsafe for union narrowing
(`subt instanceof ArrayOf || subt instanceof TupleOf || subt instanceof
RecordOf`)? -/
def isCompositeOpt : Option Ty → Bool
  | some (.arrayOf _) => true
  | some (.tupleOf _) => true
  | some (.recordOf _) => true
  | _ => false

/-- The set trap installed by `OneOf.editValue` on an object-like value:
filter the members against the written value (a dead store in the source,
kept for its possible exception), build the post-write shallow copy (whose
assignment can itself raise on an array target), filter the members against
that copy, reject when no member is compatible, and commit the raw value
exactly when no compatible member declares a composite sub-descriptor at
the written key.  In the remaining (ambiguous) case the rejection
diagnostic evaluates `t.subtypeAt(prop).toString()` on every compatible
member before returning `false`, so a compatible member whose
sub-descriptor at the key is `undefined` (a leaf member) makes the trap
raise a built-in `TypeError` instead of rejecting. -/
def oneOfSetTrap (ms : List Ty) (obj : JSVal) (k : Key) (v : JSVal) :
    Except WriteErr (Bool × JSVal) :=
  match filterValid ms v with
  | .error e => .error (.threw e)
  | .ok _ =>
    match shallowCopySet obj k v with
    | .error e => .error (.assignThrew e)
    | .ok newObject =>
      match filterValid ms newObject with
      | .error e => .error (.threw e)
      | .ok compatible =>
        if compatible.isEmpty then .ok (false, obj)
        else
          if !(compatible.any (fun t => isCompositeOpt (subtypeAtT t k))) then
            match setProp obj k v with
            | .error e => .error (.assignThrew e)
            | .ok obj2 => .ok (true, obj2)
          else
            if compatible.all (fun t => (subtypeAtT t k).isSome) then
              .ok (false, obj)
            else .error .toStringOnUndefined

/-- Errors raised by the wrapper function returned by
`TypedFunction.editValue`: the library's `invalid value` error (with the
offending position, the received value and the per-position descriptors of
the overloads still possible before this argument), the library's
`invalid return value` error (with the received return value and the
possible return descriptors), the built-in `TypeError` from reading
`.isValid` of `undefined` when a still-possible overload has no parameter
descriptor at the position, or a descriptor's own exception. -/
inductive CallErr where
  | invalidArgument (pos : Nat) (received : JSVal) (possibleAt : List Ty)
  | invalidReturn (received : JSVal) (possibleReturns : List Ty)
  | paramUndefined
  | descriptorThrew (e : TErr)

/-- `possibleOverloads.filter(overload => overload.params[i].isValid(args[i]))`:
the source indexes `params[i]` without optional chaining, so an overload
with fewer declared parameters than consumed positions crashes the filter. -/
def filterOv (i : Nat) (a : JSVal) :
    List (List Ty × Ty) → Except CallErr (List (List Ty × Ty))
  | [] => .ok []
  | ov :: rest =>
    match ov.1[i]? with
    | none => .error .paramUndefined
    | some t =>
      match tyIsValid t a with
      | .error e => .error (.descriptorThrew e)
      | .ok b =>
        match filterOv i a rest with
        | .error e => .error e
        | .ok l => .ok (if b then ov :: l else l)

/-- The per-argument elimination loop of the wrapper: for each positional
argument in order, filter the still-possible overloads; when the filter
empties the set, fail with the `invalid value` error built from the
pre-filter possible set. -/
def argLoop (i : Nat) (poss : List (List Ty × Ty)) :
    List JSVal → Except CallErr (List (List Ty × Ty))
  | [] => .ok poss
  | a :: rest =>
    match filterOv i a poss with
    | .error e => .error e
    | .ok [] => .error (.invalidArgument i a (poss.filterMap (fun ov => ov.1[i]?)))
    | .ok newPoss => argLoop (i + 1) newPoss rest

/-- `possibleOverloads.some(overload => overload.return.isValid(returnValue))`. -/
def retAny : List (List Ty × Ty) → JSVal → Except TErr Bool
  | [], _ => .ok false
  | ov :: rest, r =>
    match tyIsValid ov.2 r with
    | .error e => .error e
    | .ok true => .ok true
    | .ok false => retAny rest r

/-- One invocation of the wrapper returned by `TypedFunction.editValue`,
with the wrapped function modelled as a pure `f` from the argument list to
the returned value: run the elimination loop over the supplied arguments,
invoke `f` on the original arguments, and validate the returned value
against the surviving overloads' return descriptors. -/
def callTyped (ovs : List (List Ty × Ty)) (f : List JSVal → JSVal)
    (args : List JSVal) : Except CallErr JSVal :=
  match argLoop 0 ovs args with
  | .error e => .error e
  | .ok poss =>
    let r := f args
    match retAny poss r with
    | .error e => .error (.descriptorThrew e)
    | .ok true => .ok r
    | .ok false => .error (.invalidReturn r (poss.map (·.2)))

/-- A raw type hint as accepted by the factory functions, in the pure
(registry-free) layer: the `null`/`undefined` sentinels, the built-in
constructor markers, a bare primitive literal, an array literal (tuple
shape), a plain-object literal (record shape), or an existing descriptor. -/
inductive PHint where
  | pNull
  | pUndef
  | mBoolean
  | mNumber
  | mString
  | mObject
  | mArray
  | mSymbol
  | mFunction
  | lit (p : Prim)
  | arr (hs : List PHint)
  | obj (fs : List (Key × PHint))
  | desc (t : Ty)

/-- Reorder a record's declared fields symbol keys first, as the `RecordOf`
constructor enumerates `getOwnPropertySymbols` before
`getOwnPropertyNames`. -/
def reorderSymFirst {α : Type} (fs : List (Key × α)) : List (Key × α) :=
  fs.filter (fun kv => kv.1.isSym) ++ fs.filter (fun kv => !kv.1.isSym)

mutual
/-- `Type.getFor` in the pure layer: the shape of the canonical descriptor a
single hint normalizes to.  (Which *instance* a call returns is the stateful
registry model's concern, below.)  A descriptor hint is returned as-is, a
marker maps to its singleton, an array literal to a `TupleOf` whose
constructor normalizes each element hint by `type(t)`, a plain-object
literal to a `RecordOf` whose constructor normalizes each declared field
(symbol keys first), and a bare literal to a `Primitive`. -/
def typeP : PHint → Ty
  | .desc t => t
  | .pNull => .tNull
  | .pUndef => .tUndefined
  | .mBoolean => .tBoolean
  | .mNumber => .tNumber
  | .mString => .tString
  | .mObject => .tObject
  | .mArray => .tArray
  | .mSymbol => .tSymbol
  | .mFunction => .tFunction
  | .lit p => .prim p
  | .arr hs => .tupleOf (typePList hs)
  | .obj fs => .recordOf (reorderSymFirst (recFieldsP fs))

def typePList : List PHint → List Ty
  | [] => []
  | h :: hs => typeP h :: typePList hs

def recFieldsP : List (Key × PHint) → List (Key × Ty)
  | [] => []
  | (k, h) :: fs => (k, typeP h) :: recFieldsP fs
end

/-- `OneOf.getFor` in the pure layer: normalize each hint (a hint that is
already a `OneOf` descriptor contributes its member list; `flattenOne`
absorbs exactly those), deduplicate, degenerate a singleton set. -/
def oneOfP (hs : List PHint) : Ty :=
  oneOfTys (hs.map typeP)

/-- The `type(...typeHints)` factory in the pure layer: zero hints become
the single hint `null`, one hint normalizes directly, several hints build a
union. -/
def typeListP : List PHint → Ty
  | [] => typeP .pNull
  | [h] => typeP h
  | hs => oneOfP hs

/-- The `arrayOf(...typeHints)` factory: element descriptor `type(...)`. -/
def arrayOfP (hs : List PHint) : Ty := .arrayOf (typeListP hs)

/-- The `tupleOf(...typesHints)` factory: the constructor normalizes each
hint by `type(t)`. -/
def tupleOfP (hs : List PHint) : Ty := .tupleOf (hs.map typeP)

/-- The `recordOf(shape)` factory on a plain-object shape. -/
def recordOfP (fs : List (Key × PHint)) : Ty :=
  .recordOf (reorderSymFirst (fs.map (fun kv => (kv.1, typeP kv.2))))

/-- The `_null(typeHint)` factory: `Nullable.getFor` wraps `type(typeHint)`. -/
def nullableP (h : PHint) : Ty := .nullable (typeP h)

/-- A hint in a `func(...)` argument list: an ordinary hint contributes a
parameter descriptor, and a zero-parameter callable hint (recognized in the
source by `typeof hint === "function" && hint.prototype === undefined`, and
evaluated to obtain the hint it returns) marks the return type of the
overload accumulated so far. -/
inductive FHint where
  | param (h : PHint)
  | ret (h : PHint)

/-- The overload-splitting reduce of `TypedFunction.getFor`: parameters
accumulate into the current overload, a return marker closes it (and starts
a new empty overload with return `Type.null` unless it is the last hint). -/
def funcParse (ps : List Ty) (r : Ty) : List FHint → List (List Ty × Ty)
  | [] => [(ps, r)]
  | .ret h :: rest =>
    match rest with
    | [] => [(ps, typeP h)]
    | _ :: _ => (ps, typeP h) :: funcParse [] .tNull rest
  | .param h :: rest => funcParse (ps ++ [typeP h]) r rest

/-- The `func(...typeHints)` factory: the overload list its parse builds. -/
def funcP (hs : List FHint) : List (List Ty × Ty) :=
  funcParse [] .tNull hs

/-- A raw type hint in the registry (reference-aware) layer.  JavaScript
object literals are compared by reference in `Map` keys, so array-literal
and object-literal hints carry an allocation reference `ref`: two
evaluations of the same source literal produce distinct references.
`desc i` is an existing descriptor instance (heap id `i`).  Class
constructor hints are not modelled (no claim uses them). -/
inductive Hint where
  | hNull
  | hUndefined
  | mBoolean
  | mNumber
  | mString
  | mObject
  | mArray
  | mSymbol
  | mFunction
  | lit (p : Prim)
  | arr (ref : Nat) (hs : List Hint)
  | obj (ref : Nat) (fs : List (Key × Hint))
  | desc (id : Nat)

/-- JavaScript `Map`-key equality (SameValueZero / `===`) on hints: the
global marker constructors and sentinels are single references, literals
compare by value, array and object literals by reference, descriptors by
instance identity. -/
def hintEq : Hint → Hint → Bool
  | .hNull, .hNull => true
  | .hUndefined, .hUndefined => true
  | .mBoolean, .mBoolean => true
  | .mNumber, .mNumber => true
  | .mString, .mString => true
  | .mObject, .mObject => true
  | .mArray, .mArray => true
  | .mSymbol, .mSymbol => true
  | .mFunction, .mFunction => true
  | .lit p, .lit q => p == q
  | .arr r _, .arr r0 _ => r == r0
  | .obj r _, .obj r0 _ => r == r0
  | .desc i, .desc j => i == j
  | _, _ => false

/-- `typeof` of a hint: the marker constructors are functions, `null` and
object/array literals and descriptor instances are objects. -/
def hintTypeof : Hint → String
  | .hNull => "object"
  | .hUndefined => "undefined"
  | .mBoolean => "function"
  | .mNumber => "function"
  | .mString => "function"
  | .mObject => "function"
  | .mArray => "function"
  | .mSymbol => "function"
  | .mFunction => "function"
  | .lit (.pBool _) => "boolean"
  | .lit (.pInt _) => "number"
  | .lit (.pStr _) => "string"
  | .arr _ _ => "object"
  | .obj _ _ => "object"
  | .desc _ => "object"

/-- The string-keyed own enumerable entries of an object-literal hint. -/
def strEntriesObj : List (Key × Hint) → List (String × Hint)
  | [] => []
  | (.str s, h) :: fs => (s, h) :: strEntriesObj fs
  | (.sym _, _) :: fs => strEntriesObj fs

/-- The index-keyed entries of an array-literal hint
(`Object.entries([a,b]) = [["0",a],["1",b]]`). -/
def idxEntries (i : Nat) : List Hint → List (String × Hint)
  | [] => []
  | h :: hs => (toString i, h) :: idxEntries (i + 1) hs

/-- `Object.entries` of a hint.  A descriptor instance has no own
enumerable properties (all its fields are private), so its entry list is
empty — which is why `deepEqual` conflates any two descriptor instances.
(`Object.entries(null)` would throw; `null` is never a stored record-shape
key, see `RecordOf.getFor`.) -/
def strEntries : Hint → List (String × Hint)
  | .obj _ fs => strEntriesObj fs
  | .arr _ hs => idxEntries 0 hs
  | _ => []

def lookupStr {α : Type} : List (String × α) → String → Option α
  | [], _ => none
  | (s, a) :: rest, s0 => if s = s0 then some a else lookupStr rest s0

/-- `obj2[key]` during the `deepEqual` walk: a missing key reads as
`undefined`. -/
def lookupEntryB (b : Hint) (s : String) : Hint :=
  (lookupStr (strEntries b) s).getD .hUndefined

mutual
/-- The source's `deepEqual`, used as the memoization-key comparison of
`RecordOf.getFor`: strict equality short-circuit, `typeof` comparison, and
for objects a comparison of the `Object.entries` lengths followed by a
recursive walk over the string-keyed properties of the first object
(symbol-keyed properties are invisible to it). -/
def deepEqualH (a b : Hint) : Bool :=
  if hintEq a b then true
  else if hintTypeof a != hintTypeof b then false
  else if hintTypeof a == "object" then
    ((strEntries a).length == (strEntries b).length) &&
      (match a with
        | .obj _ fs => deepFieldsObj fs b
        | .arr _ hs => deepFieldsArr 0 hs b
        | _ => true)
  else true

def deepFieldsObj : List (Key × Hint) → Hint → Bool
  | [], _ => true
  | (.str s, h) :: rest, b =>
    deepEqualH h (lookupEntryB b s) && deepFieldsObj rest b
  | (.sym _, _) :: rest, b => deepFieldsObj rest b

def deepFieldsArr (i : Nat) : List Hint → Hint → Bool
  | [], _ => true
  | h :: rest, b =>
    deepEqualH h (lookupEntryB b (toString i)) && deepFieldsArr (i + 1) rest b
end

/-- A descriptor instance in the registry model: the shape stored on the
heap under the instance's id, with child descriptors by id. -/
inductive Node where
  | leafNull
  | leafUndefined
  | leafBoolean
  | leafNumber
  | leafString
  | leafObject
  | leafArray
  | leafSymbol
  | leafFunction
  | primN (p : Prim)
  | oneOfN (ms : List Nat)
  | tupleOfN (ts : List Nat)
  | recordOfN (fs : List (Key × Nat))
deriving DecidableEq, Repr

/-- The registry state: the allocation counter, the heap of live descriptor
instances, and the memoization tables `Type.#known`, `Primitive.#known`,
`OneOf.#known` (keyed by member-id sets), `TupleOf.#known` (the layered
raw-hint map, equivalently keyed by the ordered raw-hint list), and
`RecordOf.#known` (keyed by the raw shape, compared by `deepEqual`). -/
structure St where
  nextId : Nat
  heap : List (Nat × Node)
  baseKnown : List (Hint × Nat)
  primKnown : List (Prim × Nat)
  oneOfKnown : List (List Nat × Nat)
  tupleKnown : List (List Hint × Nat)
  recordKnown : List (Hint × Nat)

/-- First-match association lookup with an explicit key comparison; the
comparison receives the stored key first and the probe second. -/
def lookupBy {α β : Type} (eq : α → α → Bool) : List (α × β) → α → Option β
  | [], _ => none
  | (k, b) :: rest, a => if eq k a then some b else lookupBy eq rest a

def heapFind (heap : List (Nat × Node)) (i : Nat) : Option Node :=
  lookupBy (fun a b => a == b) heap i

/-- Allocate a fresh descriptor instance. -/
def alloc (s : St) (n : Node) : Nat × St :=
  (s.nextId,
    { s with nextId := s.nextId + 1, heap := s.heap ++ [(s.nextId, n)] })

/-- The initial registry: the nine built-in `Type` singletons, seeded into
`Type.#known` under the `null`/`undefined` sentinels and the constructor
markers. -/
def st0 : St :=
  { nextId := 9
    heap := [(0, .leafNull), (1, .leafUndefined), (2, .leafBoolean),
             (3, .leafNumber), (4, .leafString), (5, .leafObject),
             (6, .leafArray), (7, .leafSymbol), (8, .leafFunction)]
    baseKnown := [(.hNull, 0), (.hUndefined, 1), (.mBoolean, 2),
                  (.mNumber, 3), (.mString, 4), (.mObject, 5),
                  (.mArray, 6), (.mSymbol, 7), (.mFunction, 8)]
    primKnown := []
    oneOfKnown := []
    tupleKnown := []
    recordKnown := [] }

/-- `Primitive.getFor`: memoized by value; on a miss the new instance is
stored and returned. -/
def primGetForM (p : Prim) (s : St) : Nat × St :=
  match lookupBy (fun a b => a == b) s.primKnown p with
  | some i => (i, s)
  | none =>
    let (i, s1) := alloc s (.primN p)
    (i, { s1 with primKnown := s1.primKnown ++ [(p, i)] })

/-- Pointwise `===` on raw-hint lists: the lookup semantics of `TupleOf`'s
layered memoization map (one map level per position plus a terminal leaf
marker is equivalent to keying by the full ordered raw-hint list). -/
def listHintEq : List Hint → List Hint → Bool
  | [], [] => true
  | h :: hs, g :: gs => hintEq h g && listHintEq hs gs
  | _, _ => false

/-- `new ComparableSet(ids)`: insertion-order deduplication of member
instance ids. -/
def dedupNatAux (seen : List Nat) : List Nat → List Nat
  | [] => []
  | i :: rest =>
    if seen.contains i then dedupNatAux seen rest
    else i :: dedupNatAux (i :: seen) rest

def dedupNat (l : List Nat) : List Nat := dedupNatAux [] l

/-- `ComparableSet.equals` on two deduplicated id lists: same size and
every element of the first is in the second. -/
def natSetEq (a b : List Nat) : Bool :=
  a.length == b.length && a.all (fun x => b.contains x)

mutual
/-- `Type.getFor` in the registry model (the first argument is recursion
fuel; every theorem below runs with ample fuel, and the fuel-exhausted
result is never reached).  A descriptor hint is returned as-is; an array
literal goes to `TupleOf.getFor` over its elements; a plain-object literal
goes to `RecordOf.getFor`; a bare literal to `Primitive.getFor`; the
sentinels and markers hit `Type.#known`.  (The `typeof === "function"`
registration branch is unreachable here because the nine seeded markers are
the only function-typed hints in the model, and `Instance` hints are not
modelled.) -/
def getForF : Nat → Hint → St → Nat × St
  | 0, _, s => (0, s)
  | _ + 1, .desc i, s => (i, s)
  | fuel + 1, .lit p, s =>
    match lookupBy hintEq s.baseKnown (.lit p) with
    | some i => (i, s)
    | none =>
      let _ := fuel
      primGetForM p s
  | fuel + 1, .arr r hs, s =>
    match lookupBy hintEq s.baseKnown (.arr r hs) with
    | some i => (i, s)
    | none => tupleGetForF fuel hs s
  | fuel + 1, .obj r fs, s =>
    match lookupBy hintEq s.baseKnown (.obj r fs) with
    | some i => (i, s)
    | none => recordGetForF fuel (.obj r fs) fs s
  | _ + 1, h, s => ((lookupBy hintEq s.baseKnown h).getD 0, s)

/-- `TupleOf.getFor`: look the ordered raw-hint list up in the layered map;
on a miss, construct (`new TupleOf(...types)` normalizes each element hint
with `type(t)`), store under the raw hints, and return. -/
def tupleGetForF (fuel : Nat) (hs : List Hint) (s : St) : Nat × St :=
  match fuel with
  | 0 => (0, s)
  | fuel + 1 =>
    match lookupBy listHintEq s.tupleKnown hs with
    | some i => (i, s)
    | none =>
      let (ids, s1) := getForListF fuel hs s
      let (i, s2) := alloc s1 (.tupleOfN ids)
      (i, { s2 with tupleKnown := s2.tupleKnown ++ [(hs, i)] })

/-- `RecordOf.getFor`: scan the known shapes with `deepEqual` against the
raw shape; on a miss, construct (`new RecordOf(shape)` normalizes each
declared field hint with `type(...)`, symbol keys enumerated first), store
under the raw shape, and return.  (Field normalization is modelled in
declaration order and the field list reordered afterwards; the order only
affects which child gets which fresh id.) -/
def recordGetForF (fuel : Nat) (shape : Hint) (fs : List (Key × Hint))
    (s : St) : Nat × St :=
  match fuel with
  | 0 => (0, s)
  | fuel + 1 =>
    match lookupBy deepEqualH s.recordKnown shape with
    | some i => (i, s)
    | none =>
      let (nfs, s1) := recFieldsF fuel fs s
      let (i, s2) := alloc s1 (.recordOfN (reorderSymFirst nfs))
      (i, { s2 with recordKnown := s2.recordKnown ++ [(shape, i)] })

/-- Element-hint normalization of the `TupleOf` constructor
(`types.map(t => type(t))`), threading the registry state. -/
def getForListF (fuel : Nat) (hs : List Hint) (s : St) : List Nat × St :=
  match fuel with
  | 0 => ([], s)
  | fuel + 1 =>
    match hs with
    | [] => ([], s)
    | h :: rest =>
      let (i, s1) := getForF fuel h s
      let (ids, s2) := getForListF fuel rest s1
      (i :: ids, s2)

/-- Field-hint normalization of the `RecordOf` constructor. -/
def recFieldsF (fuel : Nat) (fs : List (Key × Hint)) (s : St) :
    List (Key × Nat) × St :=
  match fuel with
  | 0 => ([], s)
  | fuel + 1 =>
    match fs with
    | [] => ([], s)
    | (k, h) :: rest =>
      let (i, s1) := getForF fuel h s
      let (nfs, s2) := recFieldsF fuel rest s1
      ((k, i) :: nfs, s2)

/-- The member-normalization map of `OneOf.getFor`
(`types.map(t => t instanceof OneOf ? t.#subTypes : type(t)).flat()`): a
hint that is already a `OneOf` instance contributes its member-id list, any
other hint is normalized by `type(t)`. -/
def flattenF (fuel : Nat) (hs : List Hint) (s : St) : List Nat × St :=
  match fuel with
  | 0 => ([], s)
  | fuel + 1 =>
    match hs with
    | [] => ([], s)
    | h :: rest =>
      let (ids, s1) :=
        match h with
        | .desc i =>
          match heapFind s.heap i with
          | some (.oneOfN ms) => (ms, s)
          | _ => ([i], s)
        | _ =>
          let (i, s1) := getForF fuel h s
          ([i], s1)
      let (restIds, s2) := flattenF fuel rest s1
      (ids ++ restIds, s2)
end

/-- `OneOf.getFor`: flatten and deduplicate the members; a one-element set
degenerates to that member (`Type.getFor` on a descriptor); otherwise scan
the known unions with `ComparableSet.equals` (set equality, order
independent) and on a miss allocate a `OneOf` whose member order is the
insertion order of the set. -/
def oneOfGetForF (fuel : Nat) (hs : List Hint) (s : St) : Nat × St :=
  let (members, s1) := flattenF fuel hs s
  match dedupNat members with
  | [i] => (i, s1)
  | key =>
    match lookupBy (fun k p => natSetEq p k) s1.oneOfKnown key with
    | some i => (i, s1)
    | none =>
      let (i, s2) := alloc s1 (.oneOfN key)
      (i, { s2 with oneOfKnown := s2.oneOfKnown ++ [(key, i)] })

/-- The `type(...typeHints)` entry point in the registry model: zero hints
become the single hint `null`; one hint goes to `Type.getFor`; several
hints go to `OneOf.getFor`. -/
def typeF (fuel : Nat) : List Hint → St → Nat × St
  | [], s => getForF fuel .hNull s
  | [h], s => getForF fuel h s
  | hs, s => oneOfGetForF fuel hs s

/-- Ample fuel for every concrete registry run below (each recursion level
consumes one unit and the hints involved are a few levels deep). -/
def typeM (hs : List Hint) (s : St) : Nat × St := typeF 100 hs s

def tupleGetForM (hs : List Hint) (s : St) : Nat × St := tupleGetForF 100 hs s

def oneOfGetForM (hs : List Hint) (s : St) : Nat × St := oneOfGetForF 100 hs s

mutual
/-- `initialize` of every descriptor class: the stored initial value on the
`Type` singletons (a fresh symbol and the identity function are modelled by
fixed representatives), the literal on `Primitive`, the first member's
default on `OneOf` (an empty union would crash; modelled by `undefined`),
`[]` on `ArrayOf`, the per-position defaults on `TupleOf`, the per-key
defaults on `RecordOf`, `null` on `Nullable`, and a stub callable on
`TypedFunction` (modelled by a fixed function representative). -/
def tyInit : Ty → JSVal
  | .tNull => .vNull
  | .tUndefined => .vUndefined
  | .tBoolean => .vBool false
  | .tNumber => .vNum 0
  | .tString => .vStr ""
  | .tObject => .vObj []
  | .tArray => .vArr []
  | .tSymbol => .vSym 0
  | .tFunction => .vFun 0
  | .prim (.pBool b) => .vBool b
  | .prim (.pInt n) => .vNum n
  | .prim (.pStr s) => .vStr s
  | .oneOf [] => .vUndefined
  | .oneOf (m :: _) => tyInit m
  | .arrayOf _ => .vArr []
  | .tupleOf ts => .vArr (initListT ts)
  | .recordOf fs => .vObj (initFieldsT fs)
  | .nullable _ => .vNull
  | .typedFun _ => .vFun 0

def initListT : List Ty → List JSVal
  | [] => []
  | t :: ts => tyInit t :: initListT ts

def initFieldsT : List (Key × Ty) → List (Key × JSVal)
  | [] => []
  | (k, t) :: fs => (k, tyInit t) :: initFieldsT fs
end

/-- The string keys of the embedded own properties of a plain object. -/
def objKeys (ofs : List (Key × JSVal)) : List Key := ofs.map (·.1)

/-- The validity predicate stated by claim C2, written from the claim's
words for comparison with the code: the value is a non-array object, every
own enumerable key is declared and validates, and every declared key missing
from the value makes it invalid unless that key's descriptor is `Nullable`. -/
def c2SpecB (fs : List (Key × Ty)) (v : JSVal) : Bool :=
  match strip v with
  | .vObj ofs =>
    (ofs.all (fun kv =>
      match lookupKey fs kv.1 with
      | some t =>
        match tyIsValid t (getProp (.vObj ofs) kv.1) with
        | .ok true => true
        | _ => false
      | none => false)) &&
    (fs.all (fun kt =>
      (lookupKey ofs kt.1).isSome ||
        (match kt.2 with | .nullable _ => true | _ => false)))
  | _ => false

/-- The validity predicate stated by claim C3, written from the claim's
words for comparison with the code: the value is an array whose length
equals the declared arity exactly and whose element at each position
satisfies the positional descriptor. -/
def c3SpecB (ts : List Ty) (v : JSVal) : Bool :=
  match strip v with
  | .vArr xs =>
    (xs.length == ts.length) &&
    ((ts.zip xs).all (fun p =>
      match tyIsValid p.1 p.2 with
      | .ok true => true
      | _ => false))
  | _ => false

/-- Truncate every overload's parameter list to the first `n` positions. -/
def truncParams (n : Nat) (ovs : List (List Ty × Ty)) : List (List Ty × Ty) :=
  ovs.map (fun ov => (ov.1.take n, ov.2))

theorem typeofStr_strip : ∀ v : JSVal, typeofStr (strip v) = typeofStr v
  | .vNull => rfl
  | .vUndefined => rfl
  | .vBool _ => rfl
  | .vNum _ => rfl
  | .vStr _ => rfl
  | .vSym _ => rfl
  | .vArr _ => rfl
  | .vObj _ => rfl
  | .vFun _ => rfl
  | .vProxy _ target => typeofStr_strip target
  | .vFnW _ _ => rfl

theorem isArrayJS_strip : ∀ v : JSVal, isArrayJS (strip v) = isArrayJS v
  | .vNull => rfl
  | .vUndefined => rfl
  | .vBool _ => rfl
  | .vNum _ => rfl
  | .vStr _ => rfl
  | .vSym _ => rfl
  | .vArr _ => rfl
  | .vObj _ => rfl
  | .vFun _ => rfl
  | .vProxy _ target => isArrayJS_strip target
  | .vFnW _ _ => rfl

theorem getProp_strip : ∀ (v : JSVal) (k : Key), getProp (strip v) k = getProp v k
  | .vNull, _ => rfl
  | .vUndefined, _ => rfl
  | .vBool _, _ => rfl
  | .vNum _, _ => rfl
  | .vStr _, _ => rfl
  | .vSym _, _ => rfl
  | .vArr _, _ => rfl
  | .vObj _, _ => rfl
  | .vFun _, _ => rfl
  | .vProxy _ target, k => getProp_strip target k
  | .vFnW _ _, _ => rfl

theorem lookupBy_append_of_none {α β : Type} (eq : α → α → Bool)
    (l : List (α × β)) (a k : α) (b : β) (h : lookupBy eq l a = none)
    (hk : eq k a = true) : lookupBy eq (l ++ [(k, b)]) a = some b := by
  induction l with
  | nil => simp [lookupBy, hk]
  | cons p rest ih =>
    rw [List.cons_append, lookupBy]
    rw [lookupBy] at h
    by_cases hpa : eq p.1 a = true
    · simp [hpa] at h
    · simp only [Bool.not_eq_true] at hpa
      simp [hpa] at h ⊢
      exact ih h

/-- Claim C8: `type()` with zero hints substitutes the single hint `null`
and returns the `Type.null` descriptor (the seeded instance whose heap node
is the null leaf), and the `Type.null` validation function raises the
`can't set value on a type null` error on every value, so any attempt to
assign a value into the null descriptor fails fatally. -/
theorem c8_null_descriptor :
    typeM [] st0 = (0, st0) ∧
    heapFind st0.heap 0 = some .leafNull ∧
    typeP .pNull = .tNull ∧
    (∀ v : JSVal, tyIsValid .tNull v = .error .nullTypeViolation) :=
  ⟨rfl, rfl, rfl, fun _ => rfl⟩

/-- Claim C7: `Nullable(T).isValid(v)` holds exactly when `v` is `null`,
`undefined`, or valid for `T`; concretely `_null(Number)` accepts `null`,
`undefined` and `5` but rejects `"5"`; `initialize()` returns `null`; and
`editValue` is the identity (no interception wrapper). -/
theorem c7_nullable :
    (∀ (t : Ty) (v : JSVal),
      tyIsValid (.nullable t) v = .ok true ↔
        v = .vNull ∨ v = .vUndefined ∨ tyIsValid t v = .ok true) ∧
    tyIsValid (nullableP .mNumber) .vNull = .ok true ∧
    tyIsValid (nullableP .mNumber) .vUndefined = .ok true ∧
    tyIsValid (nullableP .mNumber) (.vNum 5) = .ok true ∧
    tyIsValid (nullableP .mNumber) (.vStr "5") = .ok false ∧
    (∀ t : Ty, tyInit (.nullable t) = .vNull) ∧
    (∀ (t : Ty) (v : JSVal), tyEdit (.nullable t) v = .ok v) := by
  refine ⟨?_, rfl, rfl, rfl, rfl, fun _ => rfl, fun _ _ => rfl⟩
  intro t v
  cases v <;> simp [tyIsValid, isNullV, isUndefV]

/-- Claim C9: `editValue` of `ArrayOf`, `TupleOf` and `RecordOf` performs no
validity check on the value: any proxyable value is wrapped (the result
depends only on proxyability, never on validity), reads pass through the
wrapper to the target, and concretely an array whose contents violate
`arrayOf(Number)` is wrapped without error with its invalid contents
readable through the wrapper. -/
theorem c9_edit_no_validation :
    (∀ (e : Ty) (v : JSVal), canProxy v = true →
      tyEdit (.arrayOf e) v = .ok (.vProxy (.arrayOf e) v)) ∧
    (∀ (ts : List Ty) (v : JSVal), canProxy v = true →
      tyEdit (.tupleOf ts) v = .ok (.vProxy (.tupleOf ts) v)) ∧
    (∀ (fs : List (Key × Ty)) (v : JSVal), canProxy v = true →
      tyEdit (.recordOf fs) v = .ok (.vProxy (.recordOf fs) v)) ∧
    (∀ (t : Ty) (v : JSVal) (k : Key), getProp (.vProxy t v) k = getProp v k) ∧
    tyIsValid (arrayOfP [.mNumber]) (.vArr [.vStr "x"]) = .ok false ∧
    tyEdit (arrayOfP [.mNumber]) (.vArr [.vStr "x"])
      = .ok (.vProxy (.arrayOf .tNumber) (.vArr [.vStr "x"])) ∧
    getProp (.vProxy (.arrayOf .tNumber) (.vArr [.vStr "x"])) (.str "0")
      = .vStr "x" := by
  refine ⟨?_, ?_, ?_, fun _ _ _ => rfl, rfl, rfl, rfl⟩
  · intro e v h; simp [tyEdit, h]
  · intro ts v h; simp [tyEdit, h]
  · intro fs v h; simp [tyEdit, h]

/-- Witness for the hypotheses of `c9_edit_no_validation`: wrapping the
(valid) empty object under a record descriptor. -/
theorem c9_edit_no_validation_witness :
    tyEdit (.recordOf [(.str "a", .tNumber)]) (.vObj [])
      = .ok (.vProxy (.recordOf [(.str "a", .tNumber)]) (.vObj [])) :=
  c9_edit_no_validation.2.2.1 [(.str "a", .tNumber)] (.vObj []) rfl

/-- Claim C1 (counterexample): as stated, canonicalization fails for
structurally equal hints.  `TupleOf.getFor` keys its layered memoization map
by the raw element hints (compared as `Map` keys, i.e. by reference for
object literals), so `type([{a: Number}])` evaluated twice — two tuple
hints denoting the same shape whose record-shape element literals are fresh
references (`.obj 61 ...` and `.obj 63 ...`) — returns two distinct
descriptor instances (ids 10 and 11), even though both instances carry the
same normalized shape (a one-position tuple over the shared canonical
record descriptor 9). -/
theorem c1_counterexample :
    (typeM [.arr 60 [.obj 61 [(.str "a", .mNumber)]]] st0).1 ≠
      (typeM [.arr 62 [.obj 63 [(.str "a", .mNumber)]]]
        (typeM [.arr 60 [.obj 61 [(.str "a", .mNumber)]]] st0).2).1 ∧
    heapFind ((typeM [.arr 62 [.obj 63 [(.str "a", .mNumber)]]]
        (typeM [.arr 60 [.obj 61 [(.str "a", .mNumber)]]] st0).2).2).heap
      ((typeM [.arr 60 [.obj 61 [(.str "a", .mNumber)]]] st0).1)
      = some (.tupleOfN [9]) ∧
    heapFind ((typeM [.arr 62 [.obj 63 [(.str "a", .mNumber)]]]
        (typeM [.arr 60 [.obj 61 [(.str "a", .mNumber)]]] st0).2).2).heap
      ((typeM [.arr 62 [.obj 63 [(.str "a", .mNumber)]]]
        (typeM [.arr 60 [.obj 61 [(.str "a", .mNumber)]]] st0).2).1)
      = some (.tupleOfN [9]) :=
  ⟨by decide, rfl, rfl⟩

/-- Claim C1 (amended): factory calls are canonicalizing for hints as the
registries compare them — repeated calls with the same marker hint, with
deep-structurally-equal (even referentially fresh) plain-object record
shapes, with the same (reference-identical) ordered tuple hints, and with
descriptor hints return the reference-identical descriptor;
`oneOf(Number, String) === oneOf(String, Number)` (member order does not
matter); a union whose flattened, deduplicated member set has exactly one
element degenerates to that member; nested unions are flattened and
deduplicated into the memoized member set; and `Primitive` instances are
memoized by value from any registry state.  (Tuple hints, however, are
keyed by the raw element hint references — see the counterexample.) -/
theorem c1_canonicalization :
    ((typeM [.mString] st0).1 = 4 ∧
      (typeM [.mString] (typeM [.mString] st0).2).1 = 4) ∧
    ((typeM [.obj 50 [(.str "a", .mNumber)]] st0).1 = 9 ∧
      (typeM [.obj 51 [(.str "a", .mNumber)]]
        (typeM [.obj 50 [(.str "a", .mNumber)]] st0).2).1 = 9) ∧
    ((tupleGetForM [.mString, .mString, .mNumber] st0).1 = 9 ∧
      (tupleGetForM [.mString, .mString, .mNumber]
        (tupleGetForM [.mString, .mString, .mNumber] st0).2).1 = 9) ∧
    ((oneOfGetForM [.mNumber, .mString] st0).1 = 9 ∧
      (oneOfGetForM [.mString, .mNumber]
        (oneOfGetForM [.mNumber, .mString] st0).2).1 = 9) ∧
    typeM [.mNumber, .mNumber] st0 = (3, st0) ∧
    ((typeM [.desc (typeM [.mNumber, .mString] st0).1, .mBoolean]
        (typeM [.mNumber, .mString] st0).2).1 = 10 ∧
      (typeM [.mBoolean, .mString, .mNumber]
        (typeM [.desc (typeM [.mNumber, .mString] st0).1, .mBoolean]
          (typeM [.mNumber, .mString] st0).2).2).1 = 10 ∧
      (typeM [.desc (typeM [.mNumber, .mString] st0).1, .mNumber, .mString]
        (typeM [.mNumber, .mString] st0).2).1
        = (typeM [.mNumber, .mString] st0).1) ∧
    (∀ (i : Nat) (s : St), typeM [.desc i] s = (i, s)) ∧
    (∀ (p : Prim) (s : St),
      (primGetForM p (primGetForM p s).2).1 = (primGetForM p s).1) := by
  refine ⟨⟨rfl, rfl⟩, ⟨rfl, rfl⟩, ⟨rfl, rfl⟩, ⟨rfl, rfl⟩, rfl,
    ⟨rfl, rfl, rfl⟩, fun _ _ => rfl, ?_⟩
  intro p s
  unfold primGetForM
  cases h : lookupBy (fun a b => a == b) s.primKnown p with
  | some i => simp [h]
  | none =>
    simp only [h, alloc]
    rw [lookupBy_append_of_none (fun a b => a == b) s.primKnown p p
      s.nextId h (by simp)]

/-- Claim C5 (the code diverges from it on overload sets of unequal
arities): the wrapper resolves overloads by elimination and the example
behaviors hold — `func(Number, Number, _=>Number, String, String,
_=>String)` parses into the two overloads; calling with `(1, 2)` returns
the underlying function's numeric result; calling with `("a", "b")` returns
its string result; calling with `(1, "b")` raises the `invalid value` error
at position 1 naming the received value and the one still-possible
parameter descriptor, for every underlying function (it is never invoked);
and a surviving overload set none of whose return descriptors validates the
actual return value raises the `invalid return value` error.  BUT: the
elimination loop reads `overload.params[i].isValid` without the optional
chaining used by `isValidAt`, so with overloads of arities 1 and 2
(`func(Number, _=>Number, Number, Number, _=>Number)`) a two-argument call
crashes with the built-in `TypeError` (reading `.isValid` of `undefined`)
instead of eliminating the shorter overload. -/
theorem c5_overload_elimination :
    funcP [.param .mNumber, .param .mNumber, .ret .mNumber,
           .param .mString, .param .mString, .ret .mString]
      = [([.tNumber, .tNumber], .tNumber), ([.tString, .tString], .tString)] ∧
    callTyped [([.tNumber, .tNumber], .tNumber), ([.tString, .tString], .tString)]
      (fun _ => .vNum 3) [.vNum 1, .vNum 2] = .ok (.vNum 3) ∧
    callTyped [([.tNumber, .tNumber], .tNumber), ([.tString, .tString], .tString)]
      (fun _ => .vStr "c") [.vStr "a", .vStr "b"] = .ok (.vStr "c") ∧
    (∀ f : List JSVal → JSVal,
      callTyped [([.tNumber, .tNumber], .tNumber), ([.tString, .tString], .tString)]
        f [.vNum 1, .vStr "b"]
        = .error (.invalidArgument 1 (.vStr "b") [.tNumber])) ∧
    callTyped [([.tNumber, .tNumber], .tNumber), ([.tString, .tString], .tString)]
      (fun _ => .vStr "no") [.vNum 1, .vNum 2]
      = .error (.invalidReturn (.vStr "no") [.tNumber]) ∧
    funcP [.param .mNumber, .ret .mNumber, .param .mNumber, .param .mNumber,
           .ret .mNumber]
      = [([.tNumber], .tNumber), ([.tNumber, .tNumber], .tNumber)] ∧
    (∀ f : List JSVal → JSVal,
      callTyped [([.tNumber], .tNumber), ([.tNumber, .tNumber], .tNumber)]
        f [.vNum 1, .vNum 2] = .error .paramUndefined) :=
  ⟨rfl, rfl, rfl, fun _ => rfl, rfl, rfl, fun _ => rfl⟩

/-- Claim C4 (counterexample): the claim states that an ambiguous write
(some member compatible, some surviving member with a composite
sub-descriptor at the key) is rejected with the object unchanged; but the
rejection diagnostic evaluates `t.subtypeAt(prop).toString()` on every
compatible member, and `undefined.toString()` throws.  On
`oneOf(Object, recordOf({a: recordOf({b: Number})}))` wrapping `{}`,
writing `a := {b: 1}` leaves both members compatible and the record member
ambiguous-composite at `a`, yet `Object`'s sub-descriptor at `a` is
`undefined`, so the write raises a built-in `TypeError` out of the trap
instead of being rejected. -/
theorem c4_counterexample :
    filterValid
      [.tObject, .recordOf [(.str "a", .recordOf [(.str "b", .tNumber)])]]
      (.vObj [(.str "a", .vObj [(.str "b", .vNum 1)])])
      = .ok [.tObject, .recordOf [(.str "a", .recordOf [(.str "b", .tNumber)])]] ∧
    ([Ty.tObject, .recordOf [(.str "a", .recordOf [(.str "b", .tNumber)])]].any
      (fun t => isCompositeOpt (subtypeAtT t (.str "a")))) = true ∧
    oneOfSetTrap
      [.tObject, .recordOf [(.str "a", .recordOf [(.str "b", .tNumber)])]]
      (.vObj []) (.str "a") (.vObj [(.str "b", .vNum 1)])
      = .error .toStringOnUndefined :=
  ⟨rfl, rfl, rfl⟩

/-- Claim C4 (amended): a property write on a `OneOf` interception wrapper
is all-or-nothing — when no member validates the post-write shallow copy,
the write is rejected and the wrapped object returned exactly as it was;
when some members are compatible but one of them declares a composite
(array/tuple/record) sub-descriptor at the written key, the write is
rejected as ambiguous with the object unchanged *provided every compatible
member has a defined sub-descriptor at that key* — otherwise the rejection
diagnostic itself throws a built-in `TypeError` (`undefined.toString()`),
still leaving the object unchanged but raising rather than rejecting;
otherwise the raw value is committed (by a raw assignment on the target).
Concretely, on `oneOf({a: Number}, {a: String})` wrapping `{a: 1}`: writing
`a := true` is rejected leaving `{a: 1}` readable unchanged, writing
`a := "x"` commits, and on a union whose surviving member types `a` as a
nested record, writing a record into `a` is rejected as ambiguous. -/
theorem c4_union_write :
    (∀ (ms : List Ty) (obj : JSVal) (k : Key) (v : JSVal)
        (dead : List Ty) (newObject : JSVal) (compat : List Ty),
      filterValid ms v = .ok dead →
      shallowCopySet obj k v = .ok newObject →
      filterValid ms newObject = .ok compat →
      ((compat = [] → oneOfSetTrap ms obj k v = .ok (false, obj)) ∧
        (compat ≠ [] →
          compat.any (fun t => isCompositeOpt (subtypeAtT t k)) = true →
          compat.all (fun t => (subtypeAtT t k).isSome) = true →
          oneOfSetTrap ms obj k v = .ok (false, obj)) ∧
        (compat ≠ [] →
          compat.any (fun t => isCompositeOpt (subtypeAtT t k)) = true →
          compat.all (fun t => (subtypeAtT t k).isSome) = false →
          oneOfSetTrap ms obj k v = .error .toStringOnUndefined) ∧
        (∀ obj2 : JSVal, compat ≠ [] →
          compat.any (fun t => isCompositeOpt (subtypeAtT t k)) = false →
          setProp obj k v = .ok obj2 →
          oneOfSetTrap ms obj k v = .ok (true, obj2)))) ∧
    oneOfSetTrap [recordOfP [(.str "a", .mNumber)], recordOfP [(.str "a", .mString)]]
      (.vObj [(.str "a", .vNum 1)]) (.str "a") (.vBool true)
      = .ok (false, .vObj [(.str "a", .vNum 1)]) ∧
    getProp (.vObj [(.str "a", .vNum 1)]) (.str "a") = .vNum 1 ∧
    oneOfSetTrap [recordOfP [(.str "a", .mNumber)], recordOfP [(.str "a", .mString)]]
      (.vObj [(.str "a", .vNum 1)]) (.str "a") (.vStr "x")
      = .ok (true, .vObj [(.str "a", .vStr "x")]) ∧
    oneOfSetTrap [recordOfP [(.str "a", .obj [(.str "b", .mNumber)])],
        recordOfP [(.str "a", .mNumber)]]
      (.vObj [(.str "a", .vNum 1)]) (.str "a") (.vObj [(.str "b", .vNum 1)])
      = .ok (false, .vObj [(.str "a", .vNum 1)]) := by
  refine ⟨?_, rfl, rfl, rfl, rfl⟩
  intro ms obj k v dead newObject compat h1 hsc h2
  refine ⟨?_, ?_, ?_, ?_⟩
  · intro hc
    subst hc
    simp [oneOfSetTrap, h1, hsc, h2]
  · intro hne hcomp hdef
    cases compat with
    | nil => exact absurd rfl hne
    | cons c cs =>
      simp [oneOfSetTrap, h1, hsc, h2, hcomp, hdef]
  · intro hne hcomp hdef
    cases compat with
    | nil => exact absurd rfl hne
    | cons c cs =>
      simp [oneOfSetTrap, h1, hsc, h2, hcomp, hdef]
  · intro obj2 hne hcomp hset
    cases compat with
    | nil => exact absurd rfl hne
    | cons c cs =>
      simp [oneOfSetTrap, h1, hsc, h2, hcomp, hset]

/-- Witness for the hypotheses of `c4_union_write`: the committed and the
cleanly rejected ambiguous write on concrete unions. -/
theorem c4_union_write_witness :
    oneOfSetTrap [recordOfP [(.str "a", .mNumber)], recordOfP [(.str "a", .mString)]]
      (.vObj [(.str "a", .vNum 1)]) (.str "a") (.vNum 2)
      = .ok (true, .vObj [(.str "a", .vNum 2)]) ∧
    oneOfSetTrap [recordOfP [(.str "a", .obj [(.str "b", .mNumber)])],
        recordOfP [(.str "a", .obj [(.str "b", .mString)])]]
      (.vObj []) (.str "a") (.vObj [(.str "b", .vNum 1)])
      = .ok (false, .vObj []) :=
  ⟨(c4_union_write.1 [recordOfP [(.str "a", .mNumber)], recordOfP [(.str "a", .mString)]]
      (.vObj [(.str "a", .vNum 1)]) (.str "a") (.vNum 2)
      [] (.vObj [(.str "a", .vNum 2)]) [recordOfP [(.str "a", .mNumber)]]
      rfl rfl rfl).2.2.2 (.vObj [(.str "a", .vNum 2)]) (by simp) rfl rfl,
    (c4_union_write.1 [recordOfP [(.str "a", .obj [(.str "b", .mNumber)])],
        recordOfP [(.str "a", .obj [(.str "b", .mString)])]]
      (.vObj []) (.str "a") (.vObj [(.str "b", .vNum 1)])
      [] (.vObj [(.str "a", .vObj [(.str "b", .vNum 1)])])
      [recordOfP [(.str "a", .obj [(.str "b", .mNumber)])]]
      rfl rfl rfl).2.1 (by simp) rfl rfl⟩

theorem recordCheck_ok_iff (fns : List (Key × (JSVal → Except TErr Bool)))
    (v : JSVal) : ∀ ks : List Key,
    recordCheck fns v ks = .ok true ↔
      ∀ k ∈ ks, ∃ f, lookupKey fns k = some f ∧ f (getProp v k) = .ok true := by
  intro ks
  induction ks with
  | nil => simp [recordCheck]
  | cons k ks ih =>
    rw [recordCheck]
    cases hl : lookupKey fns k with
    | none => simp [hl]
    | some f =>
      cases hf : f (getProp v k) with
      | error e => simp [hl, hf]
      | ok b =>
        cases b with
        | false => simp [hl, hf]
        | true => simp [hl, hf, ih]

theorem lookupKey_fieldsFns : ∀ (fs : List (Key × Ty)) (k : Key),
    lookupKey (fieldsFns fs) k
      = Option.map (fun t => (fun x => tyIsValid t x)) (lookupKey fs k) := by
  intro fs
  induction fs with
  | nil => intro k; rfl
  | cons kt fs ih =>
    intro k
    obtain ⟨k0, t⟩ := kt
    rw [fieldsFns, lookupKey, lookupKey]
    by_cases h : k0 = k
    · simp [h]
    · simp [h, ih]

theorem strip_not_proxy : ∀ (v : JSVal) (t : Ty) (u : JSVal),
    strip v ≠ .vProxy t u
  | .vNull, _, _ => fun hh => nomatch hh
  | .vUndefined, _, _ => fun hh => nomatch hh
  | .vBool _, _, _ => fun hh => nomatch hh
  | .vNum _, _, _ => fun hh => nomatch hh
  | .vStr _, _, _ => fun hh => nomatch hh
  | .vSym _, _, _ => fun hh => nomatch hh
  | .vArr _, _, _ => fun hh => nomatch hh
  | .vObj _, _, _ => fun hh => nomatch hh
  | .vFun _, _, _ => fun hh => nomatch hh
  | .vProxy _ target, t, u => strip_not_proxy target t u
  | .vFnW _ _, _, _ => fun hh => nomatch hh

/-- Claim C2 (counterexample): the claim requires a declared key missing
from the value to make it invalid unless its descriptor is `Nullable`, but
`RecordOf.isValid` only enumerates the value's own keys and never checks
the declared keys, so `recordOf({a: Number}).isValid({})` is `true` while
the claim's predicate is false there. -/
theorem c2_counterexample :
    tyIsValid (recordOfP [(.str "a", .mNumber)]) (.vObj []) = .ok true ∧
    c2SpecB [(.str "a", .tNumber)] (.vObj []) = false ∧
    recordOfP [(.str "a", .mNumber)] = .recordOf [(.str "a", .tNumber)] :=
  ⟨rfl, rfl, rfl⟩

/-- Claim C2 (amended): `RecordOf` validity is closed over the value's own
keys — `isValid(value)` is true exactly when the value is a non-array
object and every one of its own enumerable keys (symbol keys included) has
a corresponding declared key whose descriptor validates the value at that
key; extra (undeclared) keys make the value invalid.  Declared keys missing
from the value are never checked (whether or not they are `Nullable`).
Concretely `recordOf({a: Number}).isValid({a: 1})` is true and
`.isValid({a: 1, b: 2})` is false. -/
theorem c2_recordOf_closed :
    (∀ (fs : List (Key × Ty)) (v : JSVal),
      tyIsValid (.recordOf fs) v = .ok true ↔
        ∃ ofs, strip v = .vObj ofs ∧
          ∀ k ∈ ownKeysSymFirst ofs,
            ∃ t, lookupKey fs k = some t ∧
              tyIsValid t (getProp (JSVal.vObj ofs) k) = .ok true) ∧
    tyIsValid (recordOfP [(.str "a", .mNumber)])
      (.vObj [(.str "a", .vNum 1)]) = .ok true ∧
    tyIsValid (recordOfP [(.str "a", .mNumber)])
      (.vObj [(.str "a", .vNum 1), (.str "b", .vNum 2)]) = .ok false := by
  refine ⟨?_, rfl, rfl⟩
  intro fs v
  rw [show tyIsValid (.recordOf fs) v
      = (if typeofStr v != "object" || isArrayJS v then .ok false
         else match strip v with
           | .vObj ofs =>
             recordCheck (fieldsFns fs) (.vObj ofs) (ownKeysSymFirst ofs)
           | .vNull => .error .toObjectOnNull
           | _ => .ok false) from rfl]
  rw [← typeofStr_strip v, ← isArrayJS_strip v]
  cases h : strip v with
  | vObj ofs =>
    show recordCheck (fieldsFns fs) (JSVal.vObj ofs) (ownKeysSymFirst ofs)
        = .ok true ↔ _
    rw [recordCheck_ok_iff]
    constructor
    · intro hk
      refine ⟨ofs, rfl, ?_⟩
      intro k hkmem
      obtain ⟨f, hf, hval⟩ := hk k hkmem
      rw [lookupKey_fieldsFns] at hf
      cases hl : lookupKey fs k with
      | none => rw [hl] at hf; exact absurd hf (by simp)
      | some t =>
        rw [hl] at hf
        injection hf with hf
        subst hf
        exact ⟨t, rfl, hval⟩
    · rintro ⟨ofs0, hofs, hk⟩
      cases hofs
      intro k hkmem
      obtain ⟨t, ht, hval⟩ := hk k hkmem
      exact ⟨fun x => tyIsValid t x, by rw [lookupKey_fieldsFns, ht]; rfl, hval⟩
  | vNull => exact iff_of_false (fun hh => nomatch hh) (fun ⟨ofs, hofs, _⟩ => JSVal.noConfusion hofs)
  | vUndefined => exact iff_of_false (fun hh => nomatch hh) (fun ⟨ofs, hofs, _⟩ => JSVal.noConfusion hofs)
  | vBool b => exact iff_of_false (fun hh => nomatch hh) (fun ⟨ofs, hofs, _⟩ => JSVal.noConfusion hofs)
  | vNum n => exact iff_of_false (fun hh => nomatch hh) (fun ⟨ofs, hofs, _⟩ => JSVal.noConfusion hofs)
  | vStr s => exact iff_of_false (fun hh => nomatch hh) (fun ⟨ofs, hofs, _⟩ => JSVal.noConfusion hofs)
  | vSym n => exact iff_of_false (fun hh => nomatch hh) (fun ⟨ofs, hofs, _⟩ => JSVal.noConfusion hofs)
  | vArr xs => exact iff_of_false (fun hh => nomatch hh) (fun ⟨ofs, hofs, _⟩ => JSVal.noConfusion hofs)
  | vFun fid => exact iff_of_false (fun hh => nomatch hh) (fun ⟨ofs, hofs, _⟩ => JSVal.noConfusion hofs)
  | vProxy t target => exact absurd h (strip_not_proxy v t target)
  | vFnW ovs target =>
    exact iff_of_false (fun hh => nomatch hh) (fun ⟨ofs, hofs, _⟩ => JSVal.noConfusion hofs)

theorem tupCheck_ok_iff : ∀ (ts : List Ty) (xs : List JSVal),
    tupCheck (tupFns ts) xs = .ok true ↔
      (xs.length ≤ ts.length ∧
        ∀ p ∈ ts.zip xs, tyIsValid p.1 p.2 = .ok true) := by
  intro ts
  induction ts with
  | nil =>
    intro xs
    cases xs with
    | nil => simp [tupFns, tupCheck]
    | cons x xs => simp [tupFns, tupCheck]
  | cons t ts ih =>
    intro xs
    cases xs with
    | nil => simp [tupFns, tupCheck]
    | cons x xs =>
      rw [tupFns, tupCheck]
      cases hv : tyIsValid t x with
      | error e => simp [hv]
      | ok b =>
        cases b with
        | false => simp [hv]
        | true => simp [hv, ih xs, Nat.succ_le_succ_iff]

/-- Claim C3 (counterexample): the claim requires the array length to equal
the declared arity exactly, with shorter arrays invalid; but
`TupleOf.isValid` iterates only the value's own elements
(`value.every((v, i) => types[i]?.isValid(v))`), so the one-element array
`[1]` is accepted by `tupleOf(Number, String)` while the claim's predicate
is false there. -/
theorem c3_counterexample :
    tyIsValid (tupleOfP [.mNumber, .mString]) (.vArr [.vNum 1]) = .ok true ∧
    c3SpecB [.tNumber, .tString] (.vArr [.vNum 1]) = false ∧
    tupleOfP [.mNumber, .mString] = .tupleOf [.tNumber, .tString] :=
  ⟨rfl, rfl, rfl⟩

/-- Claim C3 (amended): `TupleOf` validity is positional with the declared
arity as an upper bound — `isValid(value)` is true exactly when the value
is an array of length at most the declared arity whose element at each
position satisfies that position's descriptor; extra trailing elements make
it invalid, but arrays shorter than the arity are accepted (their missing
trailing positions are never checked).  Concretely
`tupleOf(Number, String).isValid([1, "x"])` is true and
`.isValid([1, "x", 2])` is false. -/
theorem c3_tupleOf_positional :
    (∀ (ts : List Ty) (v : JSVal),
      tyIsValid (.tupleOf ts) v = .ok true ↔
        ∃ xs, strip v = .vArr xs ∧ xs.length ≤ ts.length ∧
          ∀ p ∈ ts.zip xs, tyIsValid p.1 p.2 = .ok true) ∧
    tyIsValid (tupleOfP [.mNumber, .mString])
      (.vArr [.vNum 1, .vStr "x"]) = .ok true ∧
    tyIsValid (tupleOfP [.mNumber, .mString])
      (.vArr [.vNum 1, .vStr "x", .vNum 2]) = .ok false := by
  refine ⟨?_, rfl, rfl⟩
  intro ts v
  rw [show tyIsValid (.tupleOf ts) v
      = (match strip v with
         | .vArr xs => tupCheck (tupFns ts) xs
         | _ => .ok false) from rfl]
  cases h : strip v with
  | vArr xs =>
    rw [tupCheck_ok_iff]
    constructor
    · intro hk
      exact ⟨xs, rfl, hk⟩
    · rintro ⟨xs0, hxs, hk⟩
      cases hxs
      exact hk
  | vNull => exact iff_of_false (fun hh => nomatch hh) (fun ⟨xs, hxs, _⟩ => JSVal.noConfusion hxs)
  | vUndefined => exact iff_of_false (fun hh => nomatch hh) (fun ⟨xs, hxs, _⟩ => JSVal.noConfusion hxs)
  | vBool b => exact iff_of_false (fun hh => nomatch hh) (fun ⟨xs, hxs, _⟩ => JSVal.noConfusion hxs)
  | vNum n => exact iff_of_false (fun hh => nomatch hh) (fun ⟨xs, hxs, _⟩ => JSVal.noConfusion hxs)
  | vStr s => exact iff_of_false (fun hh => nomatch hh) (fun ⟨xs, hxs, _⟩ => JSVal.noConfusion hxs)
  | vSym n => exact iff_of_false (fun hh => nomatch hh) (fun ⟨xs, hxs, _⟩ => JSVal.noConfusion hxs)
  | vObj fs => exact iff_of_false (fun hh => nomatch hh) (fun ⟨xs, hxs, _⟩ => JSVal.noConfusion hxs)
  | vFun fid => exact iff_of_false (fun hh => nomatch hh) (fun ⟨xs, hxs, _⟩ => JSVal.noConfusion hxs)
  | vProxy t target => exact absurd h (strip_not_proxy v t target)
  | vFnW ovs target =>
    exact iff_of_false (fun hh => nomatch hh) (fun ⟨xs, hxs, _⟩ => JSVal.noConfusion hxs)

theorem take_idx {α : Type} : ∀ (l : List α) (n i : Nat), i < n →
    (l.take n)[i]? = l[i]?
  | [], _, _, _ => by simp
  | _ :: _, n + 1, 0, _ => by simp
  | x :: l, n + 1, i + 1, h => by
    simp only [List.take_succ_cons, List.getElem?_cons_succ]
    exact take_idx l n i (Nat.lt_of_succ_lt_succ h)
  | _ :: _, 0, i, h => absurd h (Nat.not_lt_zero i)

theorem truncParams_filterMap (n i : Nat) (hin : i < n) :
    ∀ poss : List (List Ty × Ty),
      (truncParams n poss).filterMap (fun ov => ov.1[i]?)
        = poss.filterMap (fun ov => ov.1[i]?) := by
  intro poss
  induction poss with
  | nil => rfl
  | cons ov rest ih =>
    simp only [truncParams, List.map_cons, List.filterMap_cons] at ih ⊢
    rw [take_idx ov.1 n i hin, ih]

theorem retAny_truncParams (n : Nat) (r : JSVal) :
    ∀ poss : List (List Ty × Ty), retAny (truncParams n poss) r = retAny poss r := by
  intro poss
  induction poss with
  | nil => rfl
  | cons ov rest ih =>
    show retAny ((ov.1.take n, ov.2) :: truncParams n rest) r = _
    rw [retAny, retAny]
    cases tyIsValid ov.2 r with
    | error e => rfl
    | ok b => cases b with
      | true => rfl
      | false => exact ih

theorem map_snd_truncParams (n : Nat) (poss : List (List Ty × Ty)) :
    (truncParams n poss).map (·.2) = poss.map (·.2) := by
  induction poss with
  | nil => rfl
  | cons ov rest ih =>
    simp only [truncParams, List.map_cons] at ih ⊢
    rw [ih]

theorem truncParams_cons (n : Nat) (ov : List Ty × Ty)
    (rest : List (List Ty × Ty)) :
    truncParams n (ov :: rest) = (ov.1.take n, ov.2) :: truncParams n rest :=
  rfl

theorem filterOv_truncParams (i n : Nat) (a : JSVal) (hin : i < n) :
    ∀ poss : List (List Ty × Ty),
      filterOv i a (truncParams n poss)
        = Except.map (truncParams n) (filterOv i a poss) := by
  intro poss
  induction poss with
  | nil => rfl
  | cons ov rest ih =>
    rw [truncParams_cons, filterOv, filterOv, take_idx ov.1 n i hin, ih]
    cases hfr : filterOv i a rest with
    | error e =>
      split
      · rfl
      · split <;> rfl
    | ok l =>
      split
      · rfl
      · split
        · rfl
        · rename_i b heq
          cases b <;> rfl

theorem argLoop_truncParams (n : Nat) :
    ∀ (args : List JSVal) (i : Nat) (poss : List (List Ty × Ty)),
      i + args.length ≤ n →
      argLoop i (truncParams n poss) args
        = Except.map (truncParams n) (argLoop i poss args) := by
  intro args
  induction args with
  | nil => intro i poss _; rfl
  | cons a rest ih =>
    intro i poss hle
    have hin : i < n := by
      have := hle
      simp only [List.length_cons] at this
      omega
    rw [argLoop, argLoop, filterOv_truncParams i n a hin poss]
    cases hf : filterOv i a poss with
    | error e => rfl
    | ok l =>
      cases l with
      | nil =>
        show Except.error (CallErr.invalidArgument i a
              ((truncParams n poss).filterMap (fun ov => ov.1[i]?)))
            = Except.map (truncParams n)
              (Except.error (CallErr.invalidArgument i a
                (poss.filterMap (fun ov => ov.1[i]?))))
        rw [truncParams_filterMap n i hin poss]
        rfl
      | cons o l0 =>
        show argLoop (i + 1) ((o.1.take n, o.2) :: truncParams n l0) rest
            = Except.map (truncParams n) (argLoop (i + 1) (o :: l0) rest)
        exact ih (i + 1) (o :: l0)
          (by simp only [List.length_cons] at hle; omega)

/-- Claim C10: the wrapper never checks argument count — an invocation
behaves exactly as if every overload's parameter list were truncated to the
number of supplied arguments, so positions beyond the supplied arguments
undergo no validation and raise nothing; concretely, a one-argument call on
a two-parameter overload reaches the underlying function with the short
argument list (the function observes one argument), even when the
unconsumed second parameter descriptor would throw on any value. -/
theorem c10_no_arity_check :
    (∀ (ovs : List (List Ty × Ty)) (f : List JSVal → JSVal)
        (args : List JSVal),
      callTyped ovs f args = callTyped (truncParams args.length ovs) f args) ∧
    callTyped [([.tNumber, .tNull], .tNumber)] (fun _ => .vNum 7) [.vNum 1]
      = .ok (.vNum 7) ∧
    callTyped [([.tNumber, .tNumber], .tNumber)]
      (fun l => .vNum l.length) [.vNum 1] = .ok (.vNum 1) := by
  refine ⟨?_, rfl, rfl⟩
  intro ovs f args
  rw [callTyped, callTyped,
    argLoop_truncParams args.length args 0 ovs (by simp)]
  cases argLoop 0 ovs args with
  | error e => rfl
  | ok poss =>
    show _ = (match retAny (truncParams args.length poss) (f args) with
      | .error e => Except.error (.descriptorThrew e)
      | .ok true => .ok (f args)
      | .ok false => .error (.invalidReturn (f args)
          ((truncParams args.length poss).map (·.2))))
    rw [retAny_truncParams, map_snd_truncParams]
